import Mathlib

/-!
# Falcon full-text search engine: a shallow embedding

This file embeds the core of `falcon.py` (tokenizers, the in-memory
inverted-index buffer, the indexing pipeline, and the searcher) as pure
Lean functions, and proves or refutes the specification's claims about it.

Modelling conventions:
* Python strings are `List Char` (sequences of code points); `s[i:i+n]`
  is `(s.drop i).take n`.
* Python dicts keyed by token / document id are association lists in
  insertion order, which is exactly the iteration order of a Python dict.
* The sqlite tables `indices` and `documents` are association lists in
  row order (insertion order for these append-only tables).
* `pickle.dumps`/`pickle.loads` (an external stdlib collaborator) is
  modelled by the explicit injective encoder `serializePostingList` /
  `deserializePostingList` below, which satisfies the exact round-trip
  contract of pickling a plain record; the store-level model keeps the
  decoded values directly, which is faithful because the round-trip is
  exact (proved below).
* `bz2.compress`/`decompress` on document contents round-trips exactly
  and is invisible to every claim, so document contents are stored raw.
-/

namespace Falcon

/-- Code points matched by Python's regex `\s` on `str` (Unicode mode):
the whitespace class used both inside the tokenizer's stopword character
class and by `re.split('\s+', ...)` in `Searcher.search`. -/
def pyWhitespaceCodes : List Nat :=
  [0x9, 0xa, 0xb, 0xc, 0xd, 0x1c, 0x1d, 0x1e, 0x1f, 0x20, 0x85, 0xa0,
   0x1680, 0x2000, 0x2001, 0x2002, 0x2003, 0x2004, 0x2005, 0x2006, 0x2007,
   0x2008, 0x2009, 0x200a, 0x2028, 0x2029, 0x202f, 0x205f, 0x3000]

/-- `c` is matched by Python's `\s`. -/
def isPyWs (c : Char) : Bool := pyWhitespaceCodes.contains c.toNat

/-- The literal (non-`0-9`, non-`\s`) code points of the stopword
character class compiled in `Tokenizer.__init__` (falcon.py line 31),
in order of appearance, duplicates kept.  Note that it contains the
Latin letter `i` (0x69). -/
def stopwordLiteralCodes : List Nat :=
  [0x2c, 0x2e, 0x21, 0x3f, 0x22, 0x27, 0x24, 0x25, 0x26, 0x2d, 0x2b,
   0x3d, 0x2f, 0x23, 0x3a, 0x3b, 0x7b, 0x7d, 0x5b, 0x5d, 0x28, 0x29,
   0x3c, 0x3e, 0x5e, 0x7e, 0x5f, 0x2192, 0x69, 0xff61, 0x40, 0xff65,
   0xff9e, 0xff64, 0xff62, 0xff63, 0x2026, 0x2605, 0x2606, 0x266d,
   0x5c, 0x2013, 0x25bc, 0x266a, 0x21d4, 0x2665, 0xb0, 0x2010, 0x2015,
   0x2015, 0x2260, 0x203b, 0x221e, 0x25c7, 0xd7, 0x3001, 0x3002,
   0xff08, 0xff09, 0xff1a, 0xff1b, 0x300c, 0x300d, 0x300e, 0x300f,
   0x3010, 0x3011, 0xff3b, 0xff3d, 0xff5b, 0xff5d, 0x3008, 0x3009,
   0x300a, 0x300b, 0x3014, 0x3015, 0x301c, 0xff5e, 0xfffd, 0xff5c,
   0xff40, 0xff3c, 0xff20, 0xff1f, 0xff01, 0x201d, 0xff03, 0xff04,
   0xff05, 0xff06, 0x2019, 0xff1d, 0xff0b, 0xff0a, 0xff1c, 0xff1e,
   0xff3f, 0xff3e, 0xffe5, 0xff0f, 0xff0c, 0x30fb, 0xb4, 0x20,
   0x25bd, 0x20, 0xff0e, 0xff0d, 0xffe4]

/-- Membership of one character in the stopword character class
`[0-9\s,.!?"'$%&\-+=/#:;{}\[\]()<>^~_→i｡@･ﾞ､｢｣…★☆♭\\–▼♪⇔♥°‐――≠※∞◇×、。（）：；「」
『』【】［］｛｝〈〉《》〔〕〜～�｜｀＼＠？！”＃＄％＆’＝＋＊＜＞＿＾￥／，・´ ▽ ．－￤]`
of `Tokenizer.__init__`. -/
def isStopword (c : Char) : Bool :=
  (0x30 ≤ c.toNat && c.toNat ≤ 0x39) || isPyWs c ||
    stopwordLiteralCodes.contains c.toNat

/-- `self.stopwords.search(token) == None`: no character of `token` is in
the stopword class. -/
def noStopword (token : List Char) : Bool := token.all fun c => !isStopword c

/-- Common body of `BigramTokenizer.tokenize` and
`TrigramTokenizer.tokenize`:
`for i in range(0, len(document)): token = document[i:i+n];
 if len(token) == n and self.stopwords.search(token) == None:
 tokens.append((i, token))`. -/
def tokenizeN (n : Nat) (document : List Char) : List (Nat × List Char) :=
  (List.range document.length).filterMap fun i =>
    let token := (document.drop i).take n
    if token.length = n ∧ noStopword token then some (i, token) else none

/-- `BigramTokenizer.tokenize(title, content = '')`. -/
def bigramTokenize (title : List Char) (content : List Char := []) :
    List (Nat × List Char) :=
  tokenizeN 2 (title ++ content)

/-- `TrigramTokenizer.tokenize(title, content = '')`. -/
def trigramTokenize (title : List Char) (content : List Char := []) :
    List (Nat × List Char) :=
  tokenizeN 3 (title ++ content)

/-- The per-token posting list, class `InvertedIndexHash`:
`token` (its own key), `posting_list` a dict from document id to the list
of positions at which the token occurs (association list in insertion
order), and `positions_count`, the total number of stored positions. -/
structure InvertedIndexHash where
  token : List Char
  posting_list : List (Nat × List Nat)
  positions_count : Nat
deriving DecidableEq, Repr

/-- `InvertedIndexHash.__init__(token, document_id, position)`. -/
def InvertedIndexHash.init (token : List Char) (document_id : Nat)
    (position : Nat) : InvertedIndexHash :=
  { token := token
    posting_list := [(document_id, [position])]
    positions_count := 1 }

/-- `InvertedIndexHash.add(document_id, position)`: append `position` to
the entry for `document_id` (creating it at the end if absent) and bump
`positions_count`. -/
def InvertedIndexHash.add (h : InvertedIndexHash) (document_id : Nat)
    (position : Nat) : InvertedIndexHash :=
  if (h.posting_list.lookup document_id).isSome then
    { h with
      posting_list := h.posting_list.map fun e =>
        if e.1 = document_id then (e.1, e.2 ++ [position]) else e
      positions_count := h.positions_count + 1 }
  else
    { h with
      posting_list := h.posting_list ++ [(document_id, [position])]
      positions_count := h.positions_count + 1 }

/-! ## Posting-list serialization

`Indexer._flush_buffer` stores `pickle.dumps(v)` and the readers apply
`pickle.loads`.  Pickle is an external stdlib collaborator whose contract
on this plain record (a string, a dict of int lists, an int) is an exact
round-trip; it is modelled by the explicit length-prefixed encoding
below. -/

/-- A length-prefixed list of naturals. -/
def encodeNatList (l : List Nat) : List Nat := l.length :: l

/-- Inverse of `encodeNatList` on a prefix of the byte stream; returns
the decoded list and the remainder. -/
def decodeNatList (bs : List Nat) : Option (List Nat × List Nat) :=
  match bs with
  | [] => none
  | k :: rest =>
    if k ≤ rest.length then some (rest.take k, rest.drop k) else none

/-- One `document_id ↦ positions` entry of the posting-list dict. -/
def encodeEntry (e : Nat × List Nat) : List Nat := e.1 :: encodeNatList e.2

/-- Decode one posting-list entry from a prefix of the stream. -/
def decodeEntry (bs : List Nat) : Option ((Nat × List Nat) × List Nat) :=
  match bs with
  | [] => none
  | d :: rest =>
    match decodeNatList rest with
    | none => none
    | some (ps, r) => some ((d, ps), r)

/-- Decode `k` posting-list entries from a prefix of the stream. -/
def decodeEntries : Nat → List Nat → Option (List (Nat × List Nat) × List Nat)
  | 0, bs => some ([], bs)
  | k + 1, bs =>
    match decodeEntry bs with
    | none => none
    | some (e, r) =>
      match decodeEntries k r with
      | none => none
      | some (es, r') => some (e :: es, r')

/-- `pickle.dumps` of an `InvertedIndexHash` value, modelled as a
deterministic injective encoding of its three fields. -/
def serializePostingList (p : InvertedIndexHash) : List Nat :=
  encodeNatList (p.token.map Char.toNat) ++
    (p.posting_list.length :: p.posting_list.flatMap encodeEntry) ++
    [p.positions_count]

/-- `pickle.loads` on a serialized `InvertedIndexHash`. -/
def deserializePostingList (bs : List Nat) : Option InvertedIndexHash :=
  match decodeNatList bs with
  | none => none
  | some (tk, r₁) =>
    match r₁ with
    | [] => none
    | k :: r₂ =>
      match decodeEntries k r₂ with
      | none => none
      | some (es, r₃) =>
        match r₃ with
        | [pc] => some { token := tk.map Char.ofNat
                         posting_list := es
                         positions_count := pc }
        | _ => none

/-! ## Indexer -/

/-- `_TOKEN_POSITION_LIMIT = 5000000`. -/
def TOKEN_POSITION_LIMIT : Nat := 5000000

/-- Python dict assignment `d[k] = v` on an insertion-ordered
association list: replace in place if the key exists, else append. -/
def assocSet (assoc : List (List Char × InvertedIndexHash)) (k : List Char)
    (v : InvertedIndexHash) : List (List Char × InvertedIndexHash) :=
  if (assoc.lookup k).isSome then
    assoc.map fun e => if e.1 = k then (k, v) else e
  else
    assoc ++ [(k, v)]

/-- The token list a `token IN("t1", "t2", ...)` clause built by
`'", "'.join(...)` actually queries: an empty token sequence produces
`IN("")`, which queries the single empty token. -/
def sqlInKeys (keys : List (List Char)) : List (List Char) :=
  if keys.isEmpty then [[]] else keys

/-- `SELECT ... FROM indices WHERE token IN(...)`, rows in table order. -/
def fetchIndexRows (db : List (List Char × InvertedIndexHash))
    (keys : List (List Char)) : List (List Char × InvertedIndexHash) :=
  db.filter fun r => r.1 ∈ sqlInKeys keys

/-- The state an `Indexer` (and through it the backing sqlite file)
carries: the in-memory merge buffer `self._inverted_index`, the
`indices` table, the `documents` table (id, title, content), and the
next `lastrowid` the autoincrementing `documents` insert will assign. -/
structure IndexerState where
  inverted_index : List (List Char × InvertedIndexHash)
  db_indices : List (List Char × InvertedIndexHash)
  db_documents : List (Nat × List Char × List Char)
  next_id : Nat
deriving DecidableEq, Repr

/-- The state right after `Indexer.__init__` on a fresh database. -/
def IndexerState.initial : IndexerState :=
  { inverted_index := [], db_indices := [], db_documents := [], next_id := 1 }

/-- `Indexer._store_document`: insert the row and return `lastrowid`. -/
def storeDocument (s : IndexerState) (title content : List Char) :
    Nat × IndexerState :=
  (s.next_id,
   { s with
     db_documents := s.db_documents ++ [(s.next_id, title, content)]
     next_id := s.next_id + 1 })

/-- `Indexer._create_posting_list(document_id, title, content)` for a
tokenizer of gram size `n`:
split the token stream into the tokens already buffered and the rest,
`add` the first group in place, bulk-fetch stored posting lists for the
second group into the buffer, then `add`-or-create for the second
group. -/
def createPostingList (n : Nat) (s : IndexerState) (document_id : Nat)
    (title content : List Char) : IndexerState :=
  let toks := tokenizeN n (title ++ content)
  let tokens_exist := toks.filter fun it => (s.inverted_index.lookup it.2).isSome
  let tokens_not_exist := toks.filter fun it => (s.inverted_index.lookup it.2).isNone
  let buf₁ := tokens_exist.foldl
    (fun buf it => buf.map fun e =>
      if e.1 = it.2 then (e.1, e.2.add document_id it.1) else e)
    s.inverted_index
  let rows := fetchIndexRows s.db_indices (tokens_not_exist.map (·.2))
  let buf₂ := rows.foldl (fun buf r => assocSet buf r.2.token r.2) buf₁
  let buf₃ := tokens_not_exist.foldl
    (fun buf it =>
      if (buf.lookup it.2).isSome then
        buf.map fun e =>
          if e.1 = it.2 then (e.1, e.2.add document_id it.1) else e
      else
        buf ++ [(it.2, InvertedIndexHash.init it.2 document_id it.1)])
    buf₂
  { s with inverted_index := buf₃ }

/-- `Indexer._flush_buffer(final = False)`: when `final` or the total
number of buffered positions exceeds `_TOKEN_POSITION_LIMIT`,
`INSERT OR REPLACE` every buffer entry and clear the buffer. -/
def flushBuffer (s : IndexerState) (final : Bool := false) : IndexerState :=
  let total_number_positions :=
    (s.inverted_index.map fun e => e.2.positions_count).sum
  if final || decide (total_number_positions > TOKEN_POSITION_LIMIT) then
    { s with
      db_indices := s.inverted_index.foldl (fun db e => assocSet db e.1 e.2)
        s.db_indices
      inverted_index := [] }
  else s

/-- `Indexer.add_index(title, content, document_id = 0)`. -/
def addIndex (n : Nat) (s : IndexerState) (title content : List Char)
    (document_id : Nat := 0) : IndexerState :=
  let ds : Nat × IndexerState :=
    if document_id = 0 then storeDocument s title content else (document_id, s)
  let s₂ := createPostingList n ds.2 ds.1 title content
  flushBuffer s₂ false

/-- `Indexer.close_database_connection` (the part that affects the
data model: the final flush). -/
def closeDatabaseConnection (s : IndexerState) : IndexerState :=
  flushBuffer s true

/-! ## Searcher -/

/-- `words.strip(' 　')`: remove leading and trailing characters that
are an ASCII space or the ideographic space U+3000 (only those two). -/
def stripSpaceIdeo (q : List Char) : List Char :=
  let isStripped : Char → Bool := fun c => c = ' ' || c.toNat = 0x3000
  ((q.dropWhile isStripped).reverse.dropWhile isStripped).reverse

/-- `re.split('\s+', s)`: split on maximal runs of `\s` characters.
A leading (resp. trailing) run contributes a leading (resp. trailing)
empty word; interior runs contribute no empty words; the result is never
empty. Expressed over `List.splitOnP`, which splits at every single
`\s` character. -/
def wsSplit (s : List Char) : List (List Char) :=
  match s.splitOnP isPyWs with
  | [] => [[]]
  | p :: rest =>
    p :: (rest.filter fun w => !w.isEmpty) ++
      (if !rest.isEmpty && (rest.getLast?).any List.isEmpty then [[]] else [])

/-- Code-point-wise (Python string) comparison `t₁ <= t₂`. -/
def lexLe : List Char → List Char → Bool
  | [], _ => true
  | _ :: _, [] => false
  | a :: as, b :: bs => if a = b then lexLe as bs else decide (a < b)

/-- Python tuple comparison `(p₁, t₁) <= (p₂, t₂)`. -/
def pairLe (x y : Nat × List Char) : Bool :=
  if x.1 = y.1 then lexLe x.2 y.2 else decide (x.1 < y.1)

/-- Insert into a `pairLe`-sorted list. -/
def insertPair (x : Nat × List Char) :
    List (Nat × List Char) → List (Nat × List Char)
  | [] => [x]
  | y :: ys => if pairLe x y then x :: y :: ys else y :: insertPair x ys

/-- `sorted(positions)`: sort the `(position, token)` pairs by the
Python tuple order.  Insertion sort agrees with Python's stable sort
because the order is total and antisymmetric on the pair values. -/
def sortPositions (l : List (Nat × List Char)) : List (Nat × List Char) :=
  l.foldr insertPair []

/-- The early-rejection test of `_get_matched_document_ids` (line 222):
`number_of_tokens != len({token for pos, token in positions})` — the
query token count **with multiplicity** against the number of distinct
tokens occurring in the candidate's position list. -/
def earlyRejectCond (tokens : List (Nat × List Char))
    (positions : List (Nat × List Char)) : Bool :=
  tokens.length ≠ (positions.map (·.2)).dedup.length

/-- One step of the positional scan of `_get_matched_document_ids`
(lines 226–235). State: `(sequence, prev_position, appended ids)`;
`prev_position` starts at `-1`, hence an `Int`.  On a completed match
(`number_of_tokens == sequence`) the document id is appended and the
loop `continue`s — skipping the `prev_position` update and leaving
`sequence` unchanged. -/
def scanStep (tokens : List (Nat × List Char)) (document_id : Nat)
    (st : Nat × Int × List Nat) (pt : Nat × List Char) :
    Nat × Int × List Nat :=
  let sequence := if (pt.1 : Int) - st.2.1 ≠ 1 then 1 else st.1
  if sequence = 1 ∨
      (sequence ≤ tokens.length ∧ (pt.1 : Int) - st.2.1 = 1) then
    if pt.2 = (tokens.getD (sequence - 1) (0, [])).2 then
      if tokens.length = sequence then
        (sequence, st.2.1, st.2.2 ++ [document_id])
      else
        (sequence + 1, (pt.1 : Int), st.2.2)
    else (sequence, (pt.1 : Int), st.2.2)
  else (sequence, (pt.1 : Int), st.2.2)

/-- The full positional scan over one candidate document: the ids
appended while walking its sorted position list. -/
def scanDocument (tokens : List (Nat × List Char)) (document_id : Nat)
    (positions : List (Nat × List Char)) : List Nat :=
  ((sortPositions positions).foldl (scanStep tokens document_id)
    (1, -1, [])).2.2

/-- What one `(document_id, positions)` entry contributes to the result
of `_get_matched_document_ids`: nothing if filtered by the prior match
set or early-rejected, else the appends of the positional scan. -/
def docContribution (tokens : List (Nat × List Char))
    (prev_matched_document_ids : Option (List Nat))
    (e : Nat × List (Nat × List Char)) : List Nat :=
  if (match prev_matched_document_ids with
      | some prev => decide (e.1 ∉ prev)
      | none => false) then []
  else if earlyRejectCond tokens e.2 then []
  else scanDocument tokens e.1 e.2

/-- `Searcher._get_matched_document_ids(documents, tokens,
prev_matched_document_ids = None)`: concatenate, in dict order, what
each candidate document appends. -/
def getMatchedDocumentIds (documents : List (Nat × List (Nat × List Char)))
    (tokens : List (Nat × List Char))
    (prev_matched_document_ids : Option (List Nat) := none) : List Nat :=
  documents.flatMap (docContribution tokens prev_matched_document_ids)

/-- The candidate map built in `Searcher.search` (lines 198–204): for
each fetched posting list, for each of its documents, append one
`(position, token)` pair per stored position, keyed by document id in
first-seen order. -/
def buildCandidates (rows : List (List Char × InvertedIndexHash)) :
    List (Nat × List (Nat × List Char)) :=
  rows.foldl
    (fun documents r =>
      r.2.posting_list.foldl
        (fun documents e =>
          let documents :=
            if (documents.lookup e.1).isSome then documents
            else documents ++ [(e.1, [])]
          e.2.foldl
            (fun documents p => documents.map fun de =>
              if de.1 = e.1 then (de.1, de.2 ++ [(p, r.2.token)]) else de)
            documents)
        documents)
    []

/-- `Searcher._get_documents(matched_document_ids)` (without content):
`[]` for an empty id list, else one `(id, title)` row per table row
whose id is in the list. -/
def getDocuments (db_documents : List (Nat × List Char × List Char))
    (matched_document_ids : List Nat) : List (Nat × List Char) :=
  if matched_document_ids.isEmpty then []
  else (db_documents.filter fun r => r.1 ∈ matched_document_ids).map
    fun r => (r.1, r.2.1)

/-- The per-word loop of `Searcher.search` (lines 187–210), returning
the matched document ids, `none` when a word's index fetch yields no
rows.  The `[]`/`none` fallthrough is unreachable from `search` since
`wsSplit` never returns an empty word list. -/
def searchGo (n : Nat) (db_indices : List (List Char × InvertedIndexHash)) :
    List (List Char) → Option (List Nat) → Option (List Nat)
  | [], matched_document_ids => matched_document_ids
  | word :: rest, matched_document_ids =>
    let tokens := tokenizeN n word
    let rows := fetchIndexRows db_indices (tokens.map (·.2))
    if rows.isEmpty then none
    else
      searchGo n db_indices rest
        (some (getMatchedDocumentIds (buildCandidates rows) tokens
          matched_document_ids))

/-- `Searcher.search(words)` for a tokenizer of gram size `n` over the
given `indices` and `documents` tables: `none` models the `return None`
("not found") paths, `some` the returned `[id, title]` rows. -/
def search (n : Nat) (db_indices : List (List Char × InvertedIndexHash))
    (db_documents : List (Nat × List Char × List Char)) (words : List Char) :
    Option (List (Nat × List Char)) :=
  match searchGo n db_indices (wsSplit (stripSpaceIdeo words)) none with
  | none => none
  | some matched_document_ids =>
    some (getDocuments db_documents matched_document_ids)

/-! ## Tokenizer characterization (C3) -/

/-- Membership in the n-gram token stream, for positive `n`: exactly
the offsets `i` with `i + n ≤ len D` whose slice is stopword-free. -/
theorem mem_tokenizeN {n : Nat} (hn : 0 < n) (D : List Char) (i : Nat)
    (g : List Char) :
    (i, g) ∈ tokenizeN n D ↔
      i + n ≤ D.length ∧ g = (D.drop i).take n ∧ noStopword g := by
  simp only [tokenizeN, List.mem_filterMap, List.mem_range]
  constructor
  · rintro ⟨a, ha, hf⟩
    split at hf
    · rename_i hcond
      obtain ⟨hlen, hsw⟩ := hcond
      rw [Option.some.injEq, Prod.mk.injEq] at hf
      obtain ⟨rfl, rfl⟩ := hf
      refine ⟨?_, rfl, hsw⟩
      rw [List.length_take, List.length_drop] at hlen
      omega
    · exact absurd hf (by simp)
  · rintro ⟨hle, hg, hsw⟩
    refine ⟨i, by omega, ?_⟩
    have hlen : ((D.drop i).take n).length = n := by
      rw [List.length_take, List.length_drop]
      omega
    rw [if_pos ⟨hlen, by rw [← hg]; exact hsw⟩, ← hg]

/-- The offsets of the token stream are strictly increasing. -/
theorem tokenizeN_pairwise (n : Nat) (D : List Char) :
    (tokenizeN n D).Pairwise fun a b => a.1 < b.1 := by
  rw [tokenizeN, List.pairwise_filterMap]
  refine (List.pairwise_lt_range D.length).imp ?_
  intro a b hab x hx y hy
  simp only [Option.mem_def] at hx hy
  split at hx
  · rw [Option.some.injEq] at hx
    split at hy
    · rw [Option.some.injEq] at hy
      rw [← hx, ← hy]
      exact hab
    · exact absurd hy (by simp)
  · exact absurd hx (by simp)

/-- Strings shorter than `n` produce no tokens. -/
theorem tokenizeN_short {n : Nat} (D : List Char) (h : D.length < n) :
    tokenizeN n D = [] := by
  rw [tokenizeN, List.filterMap_eq_nil_iff]
  intro i hi
  rw [List.mem_range] at hi
  rw [if_neg]
  rintro ⟨hl, -⟩
  rw [List.length_take, List.length_drop] at hl
  omega

/-- C3. For every title/content pair and `n ∈ {2,3}`, `tokenize` over
`D = title ++ content` emits `(i, D[i:i+n])` exactly for the offsets
`i` with `i + n ≤ len D` whose n-gram contains no stopword character,
in ascending order of `i`; and `tokenize s = []` when `len s < n`. -/
theorem tokenize_characterization :
    (∀ title content i g,
      (i, g) ∈ bigramTokenize title content ↔
        i + 2 ≤ (title ++ content).length ∧
        g = ((title ++ content).drop i).take 2 ∧ noStopword g) ∧
    (∀ title content i g,
      (i, g) ∈ trigramTokenize title content ↔
        i + 3 ≤ (title ++ content).length ∧
        g = ((title ++ content).drop i).take 3 ∧ noStopword g) ∧
    (∀ title content,
      (bigramTokenize title content).Pairwise fun a b => a.1 < b.1) ∧
    (∀ title content,
      (trigramTokenize title content).Pairwise fun a b => a.1 < b.1) ∧
    (∀ s : List Char, s.length < 2 → bigramTokenize s = []) ∧
    (∀ s : List Char, s.length < 3 → trigramTokenize s = []) :=
  ⟨fun title content i g => mem_tokenizeN (by omega) (title ++ content) i g,
   fun title content i g => mem_tokenizeN (by omega) (title ++ content) i g,
   fun title content => tokenizeN_pairwise 2 (title ++ content),
   fun title content => tokenizeN_pairwise 3 (title ++ content),
   fun s h => tokenizeN_short (s ++ []) (by simpa using h),
   fun s h => tokenizeN_short (s ++ []) (by simpa using h)⟩

/-- Witness for C3: the characterization evaluated on concrete input,
discharging the short-string hypotheses at `"a"` and `"ab"`. -/
theorem tokenize_characterization_witness :
    bigramTokenize ['a'] = [] ∧ trigramTokenize ['a', 'b'] = [] :=
  ⟨tokenize_characterization.2.2.2.2.1 ['a'] (by decide),
   tokenize_characterization.2.2.2.2.2 ['a', 'b'] (by decide)⟩

/-! ## Flush threshold (C8) -/

/-- The quantity `_flush_buffer` bounds: the sum of `positions_count`
over the in-memory buffer. -/
def bufferPositionsTotal (s : IndexerState) : Nat :=
  (s.inverted_index.map fun e => e.2.positions_count).sum

/-- A non-final flush leaves the buffer either within the limit or
empty. -/
theorem flushBuffer_threshold (s : IndexerState) :
    bufferPositionsTotal (flushBuffer s false) ≤ TOKEN_POSITION_LIMIT ∨
      (flushBuffer s false).inverted_index = [] := by
  simp only [flushBuffer, Bool.false_or]
  split
  · right
    rfl
  · rename_i h
    left
    simp only [decide_eq_true_eq, Nat.not_lt] at h
    exact h

/-- C8. After any `Indexer.add_index`, either the total number of
buffered positions is at most `_TOKEN_POSITION_LIMIT` or the buffer is
empty because the call just flushed it. -/
theorem addIndex_threshold (n : Nat) (s : IndexerState)
    (title content : List Char) (document_id : Nat) :
    bufferPositionsTotal (addIndex n s title content document_id) ≤
        TOKEN_POSITION_LIMIT ∨
      (addIndex n s title content document_id).inverted_index = [] :=
  flushBuffer_threshold _

/-! ## Posting-list round-trip (C7) -/

/-- Decoding a length-prefixed list consumes exactly it. -/
theorem decodeNatList_encode (l rest : List Nat) :
    decodeNatList (encodeNatList l ++ rest) = some (l, rest) := by
  simp only [encodeNatList, List.cons_append, decodeNatList]
  rw [if_pos (by simp), List.take_left, List.drop_left]

/-- Decoding one encoded posting-list entry consumes exactly it. -/
theorem decodeEntry_encode (e : Nat × List Nat) (rest : List Nat) :
    decodeEntry (encodeEntry e ++ rest) = some (e, rest) := by
  simp only [encodeEntry, List.cons_append, decodeEntry,
    List.append_assoc, decodeNatList_encode]

/-- Decoding `len es` encoded entries consumes exactly them. -/
theorem decodeEntries_encode (es : List (Nat × List Nat)) (rest : List Nat) :
    decodeEntries es.length (es.flatMap encodeEntry ++ rest) =
      some (es, rest) := by
  induction es with
  | nil => simp [decodeEntries]
  | cons e es ih =>
    simp only [List.length_cons, List.flatMap_cons, List.append_assoc,
      decodeEntries, decodeEntry_encode, ih]

/-- C7. Deserializing the serialization of any posting list yields a
posting list equal to it: equal token, equal document-to-positions
mapping, and equal `positions_count`. -/
theorem postingList_roundtrip (p : InvertedIndexHash) :
    deserializePostingList (serializePostingList p) = some p := by
  unfold serializePostingList deserializePostingList
  rw [List.append_assoc, decodeNatList_encode]
  simp only [List.cons_append, decodeEntries_encode]
  simp [List.map_map, Function.comp_def]

/-! ## Structure of the phrase-matcher output (C5) -/

/-- The positional scan of `_get_matched_document_ids` with the list of
appended ids replaced by a counter: one tick each time `sequence`
reaches `number_of_tokens`. -/
def scanCountStep (tokens : List (Nat × List Char)) (st : Nat × Int × Nat)
    (pt : Nat × List Char) : Nat × Int × Nat :=
  let sequence := if (pt.1 : Int) - st.2.1 ≠ 1 then 1 else st.1
  if sequence = 1 ∨
      (sequence ≤ tokens.length ∧ (pt.1 : Int) - st.2.1 = 1) then
    if pt.2 = (tokens.getD (sequence - 1) (0, [])).2 then
      if tokens.length = sequence then
        (sequence, st.2.1, st.2.2 + 1)
      else
        (sequence + 1, (pt.1 : Int), st.2.2)
    else (sequence, (pt.1 : Int), st.2.2)
  else (sequence, (pt.1 : Int), st.2.2)

/-- How many times the scan over one candidate document completes the
full query token sequence. -/
def scanMatchCount (tokens : List (Nat × List Char))
    (positions : List (Nat × List Char)) : Nat :=
  ((sortPositions positions).foldl (scanCountStep tokens) (1, -1, 0)).2.2

/-- One scan step appends to the id list exactly what the counting
machine ticks, and both machines agree on `sequence` and
`prev_position`. -/
theorem scanStep_eq_countStep (tokens : List (Nat × List Char))
    (document_id : Nat) (seq : Nat) (prev : Int) (acc : List Nat)
    (pt : Nat × List Char) :
    scanStep tokens document_id (seq, prev, acc) pt =
      ((scanCountStep tokens (seq, prev, 0) pt).1,
       (scanCountStep tokens (seq, prev, 0) pt).2.1,
       acc ++ List.replicate (scanCountStep tokens (seq, prev, 0) pt).2.2
         document_id) := by
  simp only [scanStep, scanCountStep]
  split_ifs <;> simp

/-- The counter of the counting machine is additive in its starting
value. -/
theorem scanCountFold_add (tokens : List (Nat × List Char))
    (l : List (Nat × List Char)) :
    ∀ (seq : Nat) (prev : Int) (k : Nat),
      l.foldl (scanCountStep tokens) (seq, prev, k) =
        ((l.foldl (scanCountStep tokens) (seq, prev, 0)).1,
         (l.foldl (scanCountStep tokens) (seq, prev, 0)).2.1,
         k + (l.foldl (scanCountStep tokens) (seq, prev, 0)).2.2) := by
  induction l with
  | nil => intro seq prev k; simp
  | cons pt l ih =>
    intro seq prev k
    simp only [List.foldl_cons]
    have hstep : ∀ j : Nat, scanCountStep tokens (seq, prev, j) pt =
        ((scanCountStep tokens (seq, prev, 0) pt).1,
         (scanCountStep tokens (seq, prev, 0) pt).2.1,
         j + (scanCountStep tokens (seq, prev, 0) pt).2.2) := by
      intro j
      simp only [scanCountStep]
      split_ifs <;> simp
    rw [hstep]
    obtain ⟨s', p', j⟩ := scanCountStep tokens (seq, prev, 0) pt
    rw [ih s' p' (k + j), ih s' p' j]
    simp [Nat.add_assoc]

/-- The id-accumulating scan is the counting machine with the counter
spelled out as that many copies of the document id. -/
theorem scanFold_eq_replicate (tokens : List (Nat × List Char))
    (document_id : Nat) (l : List (Nat × List Char)) :
    ∀ (seq : Nat) (prev : Int) (acc : List Nat),
      l.foldl (scanStep tokens document_id) (seq, prev, acc) =
        ((l.foldl (scanCountStep tokens) (seq, prev, 0)).1,
         (l.foldl (scanCountStep tokens) (seq, prev, 0)).2.1,
         acc ++ List.replicate
           (l.foldl (scanCountStep tokens) (seq, prev, 0)).2.2
           document_id) := by
  induction l with
  | nil => intro seq prev acc; simp
  | cons pt l ih =>
    intro seq prev acc
    simp only [List.foldl_cons]
    rw [scanStep_eq_countStep]
    rcases hK : scanCountStep tokens (seq, prev, 0) pt with ⟨s', p', j⟩
    simp only []
    rw [ih s' p' (acc ++ List.replicate j document_id),
      scanCountFold_add tokens l s' p' j]
    simp only [List.replicate_add, List.append_assoc]

/-- The scan over one candidate document produces exactly
`scanMatchCount` copies of its document id. -/
theorem scanDocument_eq_replicate (tokens : List (Nat × List Char))
    (document_id : Nat) (positions : List (Nat × List Char)) :
    scanDocument tokens document_id positions =
      List.replicate (scanMatchCount tokens positions) document_id := by
  unfold scanDocument scanMatchCount
  rw [scanFold_eq_replicate]
  simp

/-- C5 (amended). Each time `sequence` reaches the token count the
candidate's document id is appended and the positional scan continues
within the same document: the returned collection is a list holding,
for every candidate document that passes the prior-match filter and the
early-rejection test, one copy of its id per completed scan — possibly
more than one copy, and no entry for filtered documents. -/
theorem getMatchedDocumentIds_eq_flatMap_replicate
    (documents : List (Nat × List (Nat × List Char)))
    (tokens : List (Nat × List Char))
    (prev_matched_document_ids : Option (List Nat)) :
    getMatchedDocumentIds documents tokens prev_matched_document_ids =
      documents.flatMap fun e =>
        List.replicate
          (if (match prev_matched_document_ids with
               | some prev => decide (e.1 ∈ prev)
               | none => true) && !earlyRejectCond tokens e.2 then
            scanMatchCount tokens e.2
          else 0) e.1 := by
  unfold getMatchedDocumentIds
  refine congrArg _ (funext fun e => ?_)
  rcases prev_matched_document_ids with - | prev
  · rcases hrej : earlyRejectCond tokens e.2 with - | -
    · simp [docContribution, hrej, scanDocument_eq_replicate]
    · simp [docContribution, hrej]
  · by_cases hm : e.1 ∈ prev
    · rcases hrej : earlyRejectCond tokens e.2 with - | -
      · simp [docContribution, hm, hrej, scanDocument_eq_replicate]
      · simp [docContribution, hm, hrej]
    · simp [docContribution, hm]

/-- Counterexample to C5 as stated: on one candidate document holding
the query bigram at two non-adjacent positions, the matcher returns the
document id twice — the scan does not move on to the next document
after a match, and the result is not a set. -/
theorem getMatchedDocumentIds_duplicate_counterexample :
    getMatchedDocumentIds [(1, [(0, ['a', 'b']), (2, ['a', 'b'])])]
        [(0, ['a', 'b'])] none = [1, 1] ∧
      ¬ (getMatchedDocumentIds [(1, [(0, ['a', 'b']), (2, ['a', 'b'])])]
          [(0, ['a', 'b'])] none).Nodup := by
  decide

/-! ## The early-rejection test (C4) -/

/-- Modelled from the claim's words, for comparison with the code's
`earlyRejectCond`: reject exactly when the set of distinct ngrams
present in the position list has cardinality less than the number of
distinct ngrams required by the query token sequence. -/
def claimEarlyReject (tokens : List (Nat × List Char))
    (positions : List (Nat × List Char)) : Bool :=
  (positions.map (·.2)).dedup.length < (tokens.map (·.2)).dedup.length

/-- Counterexample to C4 as stated: for the bigram query `"ooo"`
(token `"oo"` twice) and a candidate holding `"oo"` once, the code
rejects (`2 ≠ 1`) although the distinct ngrams present (1) are not
fewer than the distinct ngrams required (1). -/
theorem earlyReject_counterexample :
    earlyRejectCond [(0, ['o', 'o']), (1, ['o', 'o'])] [(0, ['o', 'o'])] =
        true ∧
      claimEarlyReject [(0, ['o', 'o']), (1, ['o', 'o'])]
        [(0, ['o', 'o'])] = false := by
  decide

/-- C4 (amended). For candidates drawn from the query's own posting
lists (every ngram in the position list is a query ngram), the code
early-rejects exactly when the distinct ngrams present are fewer than
the distinct ngrams required **or** the query token sequence contains a
repeated ngram (in which case every candidate is rejected). -/
theorem earlyRejectCond_characterization (tokens : List (Nat × List Char))
    (positions : List (Nat × List Char))
    (h : ∀ pt ∈ positions, pt.2 ∈ tokens.map (·.2)) :
    earlyRejectCond tokens positions = true ↔
      (claimEarlyReject tokens positions = true ∨
        (tokens.map (·.2)).dedup.length ≠ tokens.length) := by
  have hPR : (positions.map (·.2)).dedup.length ≤
      (tokens.map (·.2)).dedup.length := by
    rw [← List.card_toFinset, ← List.card_toFinset]
    refine Finset.card_le_card ?_
    intro x hx
    rw [List.mem_toFinset] at hx ⊢
    obtain ⟨pt, hpt, rfl⟩ := List.mem_map.mp hx
    exact h pt hpt
  have hRL : (tokens.map (·.2)).dedup.length ≤ tokens.length := by
    have := (List.dedup_sublist (tokens.map (·.2))).length_le
    simpa using this
  simp only [earlyRejectCond, claimEarlyReject, decide_eq_true_eq]
  omega

/-- Witness for C4: the characterization applied at a one-token query
and a matching one-entry position list, where the hypothesis holds. -/
theorem earlyRejectCond_characterization_witness :
    earlyRejectCond [(0, ['a', 'b'])] [(0, ['a', 'b'])] = true ↔
      (claimEarlyReject [(0, ['a', 'b'])] [(0, ['a', 'b'])] = true ∨
        (([(0, ['a', 'b'])] : List (Nat × List Char)).map
            (·.2)).dedup.length ≠
          ([(0, ['a', 'b'])] : List (Nat × List Char)).length) :=
  earlyRejectCond_characterization [(0, ['a', 'b'])] [(0, ['a', 'b'])]
    (by decide)

/-! ## Query splitting and stripping (C9) -/

/-- `dropWhile` is idempotent. -/
theorem dropWhile_dropWhile {α : Type} (p : α → Bool) (l : List α) :
    (l.dropWhile p).dropWhile p = l.dropWhile p := by
  induction l with
  | nil => rfl
  | cons a l ih =>
    by_cases h : p a
    · simp [List.dropWhile_cons, h, ih]
    · simp [List.dropWhile_cons, h]

/-- `dropWhile` over a list extended by one element. -/
theorem dropWhile_append_singleton {α : Type} (p : α → Bool) (l : List α)
    (a : α) :
    (l ++ [a]).dropWhile p =
      if (l.dropWhile p).isEmpty then (if p a then [] else [a])
      else l.dropWhile p ++ [a] := by
  induction l with
  | nil => simp [List.dropWhile_cons]
  | cons b bs ih =>
    by_cases h : p b
    · simpa [List.dropWhile_cons, h] using ih
    · simp [List.dropWhile_cons, h]

/-- Right-trimming keeps a left-trimmed list left-trimmed. -/
theorem dropWhile_of_rtrimmed {α : Type} (p : α → Bool) (A : List α)
    (hA : A.dropWhile p = A) :
    ((A.reverse.dropWhile p).reverse).dropWhile p =
      (A.reverse.dropWhile p).reverse := by
  cases A with
  | nil => simp
  | cons a as =>
    have hfa : p a = false := by
      rw [List.dropWhile_cons] at hA
      by_cases hp : p a
      · rw [if_pos hp] at hA
        have hle := (List.dropWhile_sublist (l := as) (p := p)).length_le
        rw [hA] at hle
        simp at hle
      · simpa using hp
    rw [List.reverse_cons, dropWhile_append_singleton]
    split
    · simp [hfa]
    · rw [List.reverse_append]
      simp [hfa, List.dropWhile_cons]

/-- `str.strip(' 　')` is idempotent. -/
theorem stripSpaceIdeo_idem (q : List Char) :
    stripSpaceIdeo (stripSpaceIdeo q) = stripSpaceIdeo q := by
  simp only [stripSpaceIdeo]
  rw [dropWhile_of_rtrimmed _ _ (dropWhile_dropWhile _ q),
    List.reverse_reverse, dropWhile_dropWhile]

/-- The backing store of the running example: the single document
`"abc"` (bigram-indexed, then closed). -/
def exampleState : IndexerState :=
  closeDatabaseConnection (addIndex 2 IndexerState.initial "abc".toList [] 0)

/-- Counterexample to C9 as stated: a trailing tab is neither stripped
(only `' '` and U+3000 are) nor dropped by the split — the query
`"ab\t"` produces the empty word `""`, which is then processed and
forces `None`, although its whitespace-trimmed form `"ab"` succeeds. -/
theorem search_whitespace_counterexample :
    wsSplit (stripSpaceIdeo ("ab".toList ++ ['\t'])) = ["ab".toList, []] ∧
      search 2 exampleState.db_indices exampleState.db_documents
        ("ab".toList ++ ['\t']) = none ∧
      search 2 exampleState.db_indices exampleState.db_documents
        "ab".toList = some [(1, "abc".toList)] := by
  decide

/-- C9 (amended). `Searcher.search` strips only leading and trailing
ASCII spaces and ideographic spaces U+3000 before splitting — searching
any query equals searching its `' '`/U+3000-trimmed form.  (Leading or
trailing whitespace of the other `\s` classes survives the strip,
produces an empty word, and that empty word **is** processed, making
the search return `None`.) -/
theorem search_strip_invariant (n : Nat)
    (db_indices : List (List Char × InvertedIndexHash))
    (db_documents : List (Nat × List Char × List Char)) (q : List Char) :
    search n db_indices db_documents q =
      search n db_indices db_documents (stripSpaceIdeo q) := by
  unfold search
  rw [stripSpaceIdeo_idem]

/-! ## No duplicate result rows (C10) -/

/-- The id-keyed document fetch returns at most one row per id whenever
the `documents` table has unique ids, regardless of duplicates in the
matched-id list. -/
theorem getDocuments_ids_nodup
    (db_documents : List (Nat × List Char × List Char))
    (matched_document_ids : List Nat)
    (h : (db_documents.map (·.1)).Nodup) :
    ((getDocuments db_documents matched_document_ids).map (·.1)).Nodup := by
  unfold getDocuments
  split
  · simp
  · rw [List.map_map]
    exact List.Nodup.sublist
      ((List.filter_sublist db_documents).map fun r => r.1) h

/-- C10. Every successful search returns at most one `(docId, title)`
row per document id: the final fetch is keyed by id over a table with
unique ids, so duplicates in the internal matched-id list never surface
in the output of `Searcher.search`. -/
theorem search_result_ids_nodup (n : Nat)
    (db_indices : List (List Char × InvertedIndexHash))
    (db_documents : List (Nat × List Char × List Char)) (q : List Char)
    (res : List (Nat × List Char))
    (hdocs : (db_documents.map (·.1)).Nodup)
    (hres : search n db_indices db_documents q = some res) :
    (res.map (·.1)).Nodup := by
  unfold search at hres
  rcases hgo : searchGo n db_indices (wsSplit (stripSpaceIdeo q)) none with
    - | ids
  · rw [hgo] at hres
    exact absurd hres (by simp)
  · rw [hgo] at hres
    rw [Option.some.injEq] at hres
    rw [← hres]
    exact getDocuments_ids_nodup db_documents ids hdocs

/-- Witness for C10: applied to the running one-document example, where
the internal matched-id list is `[1]` and the output row ids are
duplicate-free. -/
theorem search_result_ids_nodup_witness :
    (([(1, "abc".toList)] : List (Nat × List Char)).map (·.1)).Nodup :=
  search_result_ids_nodup 2 exampleState.db_indices
    exampleState.db_documents "ab".toList [(1, "abc".toList)]
    (by decide) (by decide)

/-! ## NotFound semantics (C6) -/

/-- `re.split` always returns at least one element, so the per-word
loop of `search` always runs. -/
theorem wsSplit_ne_nil (s : List Char) : wsSplit s ≠ [] := by
  unfold wsSplit
  rcases s.splitOnP isPyWs with - | ⟨p, rest⟩ <;> simp

/-- With a running prior match set, the per-word loop returns `None`
exactly when some remaining word's index fetch yields no rows. -/
theorem searchGo_some_eq_none_iff (n : Nat)
    (db_indices : List (List Char × InvertedIndexHash)) :
    ∀ (ws : List (List Char)) (p : List Nat),
      searchGo n db_indices ws (some p) = none ↔
        ∃ w ∈ ws,
          fetchIndexRows db_indices ((tokenizeN n w).map (·.2)) = [] := by
  intro ws
  induction ws with
  | nil => intro p; simp [searchGo]
  | cons w rest ih =>
    intro p
    by_cases hrows :
        (fetchIndexRows db_indices ((tokenizeN n w).map (·.2))).isEmpty
    · simp only [searchGo, hrows, if_pos]
      simp only [List.isEmpty_iff] at hrows
      simp [hrows]
    · simp only [searchGo, hrows, if_neg, Bool.false_eq_true,
        not_false_iff, ih]
      simp only [List.isEmpty_iff] at hrows
      simp [hrows]

/-- C6. For an index whose stored tokens are never the empty string
(every real n-gram has length `n ≥ 2`), `Searcher.search` returns
`None` exactly when some query word tokenizes to zero ngrams (the
`IN("")` fetch then finds nothing) or its index fetch returns no
posting lists; the `None` outcome is distinct by type from a
successful search returning the empty row list. -/
theorem search_none_iff (n : Nat)
    (db_indices : List (List Char × InvertedIndexHash))
    (db_documents : List (Nat × List Char × List Char)) (q : List Char)
    (h : ∀ e ∈ db_indices, e.1 ≠ ([] : List Char)) :
    search n db_indices db_documents q = none ↔
      ∃ w ∈ wsSplit (stripSpaceIdeo q),
        (tokenizeN n w = [] ∨
          fetchIndexRows db_indices ((tokenizeN n w).map (·.2)) = []) := by
  have htf : ∀ w : List Char, tokenizeN n w = [] →
      fetchIndexRows db_indices ((tokenizeN n w).map (·.2)) = [] := by
    intro w hw
    rw [hw]
    unfold fetchIndexRows sqlInKeys
    simp only [List.map_nil, List.isEmpty_nil, if_pos]
    rw [List.filter_eq_nil_iff]
    intro e he
    simp [h e he]
  have hsame : (∃ w ∈ wsSplit (stripSpaceIdeo q),
      (tokenizeN n w = [] ∨
        fetchIndexRows db_indices ((tokenizeN n w).map (·.2)) = [])) ↔
      (∃ w ∈ wsSplit (stripSpaceIdeo q),
        fetchIndexRows db_indices ((tokenizeN n w).map (·.2)) = []) := by
    constructor
    · rintro ⟨w, hwmem, hcase | hcase⟩
      · exact ⟨w, hwmem, htf w hcase⟩
      · exact ⟨w, hwmem, hcase⟩
    · rintro ⟨w, hwmem, hcase⟩
      exact ⟨w, hwmem, Or.inr hcase⟩
  rw [hsame]
  obtain ⟨w, ws, hws⟩ : ∃ w ws, wsSplit (stripSpaceIdeo q) = w :: ws := by
    rcases hh : wsSplit (stripSpaceIdeo q) with - | ⟨a, l⟩
    · exact absurd hh (wsSplit_ne_nil _)
    · exact ⟨a, l, rfl⟩
  unfold search
  rw [hws]
  by_cases hrows :
      (fetchIndexRows db_indices ((tokenizeN n w).map (·.2))).isEmpty
  · simp only [searchGo, hrows, if_pos]
    simp only [List.isEmpty_iff] at hrows
    simp [hrows]
  · simp only [searchGo, hrows, if_neg, Bool.false_eq_true, not_false_iff]
    simp only [List.isEmpty_iff] at hrows
    rcases hgo : searchGo n db_indices ws
        (some (getMatchedDocumentIds
          (buildCandidates
            (fetchIndexRows db_indices ((tokenizeN n w).map (·.2))))
          (tokenizeN n w) none)) with - | ids
    · rw [hgo]
      rw [searchGo_some_eq_none_iff] at hgo
      constructor
      · intro _
        obtain ⟨w2, hw2, hfet⟩ := hgo
        exact ⟨w2, List.mem_cons_of_mem w hw2, hfet⟩
      · intro _
        rfl
    · rw [hgo]
      constructor
      · intro hcontra
        exact absurd hcontra (by simp)
      · rintro ⟨w2, hw2mem, hfet⟩
        rcases List.mem_cons.mp hw2mem with rfl | hw2mem
        · exact absurd hfet hrows
        · have : searchGo n db_indices ws
              (some (getMatchedDocumentIds
                (buildCandidates
                  (fetchIndexRows db_indices ((tokenizeN n w).map (·.2))))
                (tokenizeN n w) none)) = none := by
            rw [searchGo_some_eq_none_iff]
            exact ⟨w2, hw2mem, hfet⟩
          rw [hgo] at this
          exact absurd this (by simp)

/-- Witness for C6: on the running example store (whose token keys
`"ab"`, `"bc"` are nonempty), the single-letter query `"a"` tokenizes
to zero ngrams, and the search indeed returns `None`. -/
theorem search_none_iff_witness :
    (search 2 exampleState.db_indices exampleState.db_documents ['a'] =
        none ↔
      ∃ w ∈ wsSplit (stripSpaceIdeo ['a']),
        (tokenizeN 2 w = [] ∨
          fetchIndexRows exampleState.db_indices
            ((tokenizeN 2 w).map (·.2)) = [])) ∧
      search 2 exampleState.db_indices exampleState.db_documents ['a'] =
        none :=
  ⟨search_none_iff 2 exampleState.db_indices exampleState.db_documents
    ['a'] (by decide), by decide⟩

/-! ## AND semantics across words (C2) -/

/-- A candidate document contributes only its own id. -/
theorem eq_of_mem_docContribution (tokens : List (Nat × List Char))
    (prior : Option (List Nat)) (e : Nat × List (Nat × List Char))
    (d : Nat) (hd : d ∈ docContribution tokens prior e) : d = e.1 := by
  unfold docContribution at hd
  split at hd
  · simp at hd
  · split at hd
    · simp at hd
    · rw [scanDocument_eq_replicate] at hd
      exact List.eq_of_mem_replicate hd

/-- The prior-match filter of `_get_matched_document_ids` factors out
of the per-document contribution. -/
theorem docContribution_some_eq (tokens : List (Nat × List Char))
    (p : List Nat) (e : Nat × List (Nat × List Char)) :
    docContribution tokens (some p) e =
      if e.1 ∈ p then docContribution tokens none e else [] := by
  by_cases hm : e.1 ∈ p
  · simp [docContribution, hm]
  · simp [docContribution, hm]

/-- Membership in a prior-filtered matcher run is membership in the
prior set intersected with an unfiltered run. -/
theorem mem_getMatchedDocumentIds_some
    (documents : List (Nat × List (Nat × List Char)))
    (tokens : List (Nat × List Char)) (p : List Nat) (d : Nat) :
    d ∈ getMatchedDocumentIds documents tokens (some p) ↔
      d ∈ p ∧ d ∈ getMatchedDocumentIds documents tokens none := by
  unfold getMatchedDocumentIds
  simp only [List.mem_flatMap]
  constructor
  · rintro ⟨e, he, hd⟩
    rw [docContribution_some_eq] at hd
    by_cases hm : e.1 ∈ p
    · rw [if_pos hm] at hd
      have hde : d = e.1 := eq_of_mem_docContribution tokens none e d hd
      exact ⟨hde ▸ hm, e, he, hd⟩
    · rw [if_neg hm] at hd
      simp at hd
  · rintro ⟨hdp, e, he, hd⟩
    have hde : d = e.1 := eq_of_mem_docContribution tokens none e d hd
    refine ⟨e, he, ?_⟩
    rw [docContribution_some_eq, if_pos (hde ▸ hdp)]
    exact hd

/-- The ids one query word matches on its own: candidates fetched for
its tokens, phrase-matched with no prior filter. -/
def wordMatchedIds (n : Nat)
    (db_indices : List (List Char × InvertedIndexHash)) (w : List Char) :
    List Nat :=
  getMatchedDocumentIds
    (buildCandidates (fetchIndexRows db_indices ((tokenizeN n w).map (·.2))))
    (tokenizeN n w) none

/-- Unrolling the per-word loop from a running prior: membership in the
final id list is membership in the prior and in every remaining word's
own match list. -/
theorem searchGo_some_mem (n : Nat)
    (db_indices : List (List Char × InvertedIndexHash)) :
    ∀ (ws : List (List Char)) (p l : List Nat),
      searchGo n db_indices ws (some p) = some l →
        ∀ d, d ∈ l ↔ (d ∈ p ∧ ∀ w ∈ ws, d ∈ wordMatchedIds n db_indices w) := by
  intro ws
  induction ws with
  | nil =>
    intro p l h d
    simp only [searchGo, Option.some.injEq] at h
    simp [← h]
  | cons w rest ih =>
    intro p l h d
    simp only [searchGo] at h
    by_cases hrows :
        (fetchIndexRows db_indices ((tokenizeN n w).map (·.2))).isEmpty
    · rw [if_pos hrows] at h
      exact absurd h (by simp)
    · rw [if_neg hrows] at h
      have hstep := ih _ l h d
      rw [mem_getMatchedDocumentIds_some] at hstep
      rw [hstep]
      simp only [List.forall_mem_cons]
      unfold wordMatchedIds
      tauto

/-- C2 (amended). When the per-word loop succeeds, `Searcher.search`
returns the title rows of exactly those documents that the per-word
phrase matcher accepts for **every** query word: the combination across
words is set intersection of the per-word match sets (so order and
adjacency of the words inside the document are irrelevant) — but
"accepted by the phrase matcher" is not the same as "contains the word
as a substring" (see the counterexample). -/
theorem search_and_is_intersection (n : Nat)
    (db_indices : List (List Char × InvertedIndexHash))
    (db_documents : List (Nat × List Char × List Char)) (q : List Char)
    (l : List Nat)
    (h : searchGo n db_indices (wsSplit (stripSpaceIdeo q)) none = some l) :
    search n db_indices db_documents q =
        some (getDocuments db_documents l) ∧
      ∀ d, d ∈ l ↔
        ∀ w ∈ wsSplit (stripSpaceIdeo q), d ∈ wordMatchedIds n db_indices w := by
  refine ⟨by unfold search; rw [h], ?_⟩
  obtain ⟨w, ws, hws⟩ : ∃ w ws, wsSplit (stripSpaceIdeo q) = w :: ws := by
    rcases hh : wsSplit (stripSpaceIdeo q) with - | ⟨a, rest⟩
    · exact absurd hh (wsSplit_ne_nil _)
    · exact ⟨a, rest, rfl⟩
  rw [hws] at h ⊢
  simp only [searchGo] at h
  by_cases hrows :
      (fetchIndexRows db_indices ((tokenizeN n w).map (·.2))).isEmpty
  · rw [if_pos hrows] at h
    exact absurd h (by simp)
  · rw [if_neg hrows] at h
    intro d
    have hstep := searchGo_some_mem n db_indices ws _ l h d
    rw [hstep]
    simp only [List.forall_mem_cons]
    unfold wordMatchedIds
    tauto

/-- The backing store holding the single document `"abcbcbdzz"`. -/
def multiwordState : IndexerState :=
  closeDatabaseConnection
    (addIndex 2 IndexerState.initial "abcbcbdzz".toList [] 0)

/-- Counterexample to C2 as stated: the two-word query `"abcbd zz"`
returns the document `"abcbcbdzz"` although the query word `"abcbd"`
does not occur in it as a substring — so search does **not** return
exactly the documents in which every query word is a substring. -/
theorem search_multiword_counterexample :
    search 2 multiwordState.db_indices multiwordState.db_documents
        "abcbd zz".toList = some [(1, "abcbcbdzz".toList)] ∧
      ¬ ("abcbd".toList <:+: "abcbcbdzz".toList) := by
  decide

/-- Witness for C2: the two-word query `"ab zz"` on the same store,
where the loop succeeds with matched ids `[1]`. -/
theorem search_and_is_intersection_witness :
    search 2 multiwordState.db_indices multiwordState.db_documents
        "ab zz".toList =
      some (getDocuments multiwordState.db_documents [1]) ∧
      ∀ d, d ∈ [1] ↔
        ∀ w ∈ wsSplit (stripSpaceIdeo "ab zz".toList),
          d ∈ wordMatchedIds 2 multiwordState.db_indices w :=
  search_and_is_intersection 2 multiwordState.db_indices
    multiwordState.db_documents "ab zz".toList [1] (by decide)

/-! ## Phrase-match correctness (C1) -/

/-- The backing store holding the single document `"abcbcbd"`. -/
def falsePositiveState : IndexerState :=
  closeDatabaseConnection
    (addIndex 2 IndexerState.initial "abcbcbd".toList [] 0)

/-- The backing store holding the single document `"ooo"`. -/
def falseNegativeState : IndexerState :=
  closeDatabaseConnection (addIndex 2 IndexerState.initial "ooo".toList [] 0)

/-- C1 fails on the code in both directions.
False positive: after indexing `"abcbcbd"`, searching `"abcbd"` returns
the document although `"abcbd"` is not a substring (on the mismatch at
the third `(position, ngram)` pair the scan keeps `sequence` instead of
restarting, so a later `"bd"` completes a phantom match).
False negative: after indexing `"ooo"`, searching `"ooo"` returns no
documents although `"ooo"` is a substring (the early-rejection test
compares the 1 distinct ngram present against the 2 query tokens
counted with multiplicity). -/
theorem phrase_match_incorrect :
    (search 2 falsePositiveState.db_indices falsePositiveState.db_documents
        "abcbd".toList = some [(1, "abcbcbd".toList)] ∧
      ¬ ("abcbd".toList <:+: "abcbcbd".toList)) ∧
    (search 2 falseNegativeState.db_indices falseNegativeState.db_documents
        "ooo".toList = some [] ∧
      "ooo".toList <:+: "ooo".toList) := by
  decide

end Falcon
